import Mathlib

/-!
Shallow embedding of the session-coordination core of the
Rankedterview backend (Go): the matchmaking queue
(`MatchmakingService` in `internal/services`), the WebSocket hub
registry (`Hub` in `internal/websocket/hub.go`) and the
call-readiness / signaling handlers (`Client` in
`internal/websocket/client.go`).

The Redis sorted set `matchmaking:queue` is modelled as a `List String`
of member user ids in ascending score order (scores are join
timestamps, so ascending score order is FIFO join order; sorted-set
members are unique, which surfaces as a `Nodup` hypothesis).  Redis
sets are modelled as insertion-ordered duplicate-free lists, Redis
hashes and the Go `map[string]*Client` registry as association lists.
Store failures (network errors) are elided: the embedded operations
model the behaviour of the code against a reachable, healthy store,
which is the regime all the claims speak about.  MongoDB ObjectID
decoding in `CreateRoomForMatch` is elided as well: a decode failure
only turns a success into an error return before any state is touched,
so it never changes the shape of a successful call.
-/

namespace Rankedterview

/-- Matchmaking error taxonomy (`ErrAlreadyInQueue`, `ErrNotInQueue`,
`ErrNoMatchFound` in the Go source). -/
inductive MMError where
  | alreadyQueued
  | notQueued
  | noMatchFound
deriving DecidableEq, Repr

/-- Redis `ZRANK`: 0-based rank of `u` in the queue (score order),
`none` when absent. -/
def zrank : List String → String → Option Nat
  | [], _ => none
  | x :: rest, u => if x = u then some 0 else (zrank rest u).map (· + 1)

/-- `MatchmakingService.IsInQueue`: `ZScore` succeeds exactly when the
member is present, and scores are Unix join timestamps (positive), so
the `score > 0` test reduces to membership. -/
def isInQueue (q : List String) (u : String) : Bool :=
  decide (u ∈ q)

/-- `MatchmakingService.JoinQueue`: rejects a user already in the
queue with `ErrAlreadyInQueue`, otherwise `ZAdd`s the user with the
current timestamp as score, i.e. appends in FIFO order. -/
def joinQueue (q : List String) (u : String) : Except MMError (List String) :=
  if u ∈ q then .error .alreadyQueued else .ok (q ++ [u])

/-- `MatchmakingService.LeaveQueue`: `ZRem`s the member (and deletes
the metadata hash); it never reports an application-level error. -/
def leaveQueue (q : List String) (u : String) : Except MMError (List String) :=
  .ok (q.erase u)

/-- `MatchmakingService.GetQueueStatus`: `ZRank` failing maps to
`ErrNotInQueue`; otherwise position is rank+1 and the estimated wait
is `time.Duration(position/2) * 30 * time.Second`, modelled in
seconds. -/
def getQueueStatus (q : List String) (u : String) : Except MMError (Nat × Nat) :=
  match zrank q u with
  | none => .error .notQueued
  | some rank =>
    let position := rank + 1
    .ok (position, position / 2 * 30)

/-- The scan loop inside `MatchmakingService.FindMatch`.  Go keeps two
string variables `user1`, `user2` with `""` meaning unset and iterates
the `ZRange` result:
`if member == userID { user1 = member } else if user1 != "" { user2 =
member; break } else { user1 = member }`.  The accumulator is the
current `user1`; the result is the final `(user1, user2)` pair. -/
def scanLoop (userID : String) : List String → String → String × String
  | [], user1 => (user1, "")
  | m :: rest, user1 =>
    if m = userID then scanLoop userID rest m
    else if user1 ≠ "" then (user1, m)
    else scanLoop userID rest m

/-- `FindMatch`'s pair selection: fewer than two members fails
immediately; after the scan, an unset `user1` or `user2` fails with
`ErrNoMatchFound`. -/
def findPair (userID : String) (members : List String) : Option (String × String) :=
  if members.length < 2 then none
  else
    let p := scanLoop userID members ""
    if p.1 = "" ∨ p.2 = "" then none else some p

/-- A room document as created by `CreateRoomForMatch`
(`models.Room`: roomId, status `waiting`, the two participants). -/
structure Room where
  roomID : String
  status : String
  participants : List String
deriving DecidableEq, Repr

/-- The matchmaking-visible state: the `matchmaking:queue` sorted set
(FIFO order) and the created room records. -/
structure MMState where
  queue : List String
  rooms : List Room
deriving DecidableEq, Repr

/-- `MatchmakingService.CreateRoomForMatch`: creates the room record
with status `waiting` and participants `[user1, user2]` (the Redis
`room:{id}` hash stores the same two users as `user1`/`user2`). -/
def createRoomForMatch (s : MMState) (roomID u1 u2 : String) : MMState :=
  { s with rooms := s.rooms ++ [⟨roomID, "waiting", [u1, u2]⟩] }

/-- `MatchmakingService.FindMatch`: scan the queue for a pair, create
the room, then `LeaveQueue` both matched users; returns the room id
and `user2` as the partner.  `roomID` stands for the fresh random id
produced by `generateRoomID`. -/
def findMatch (s : MMState) (userID roomID : String) :
    Except MMError (String × String × MMState) :=
  match findPair userID s.queue with
  | none => .error .noMatchFound
  | some (u1, u2) =>
    let s1 := createRoomForMatch s roomID u1 u2
    let s2 := { s1 with queue := (s1.queue.erase u1).erase u2 }
    .ok (roomID, u2, s2)

/-- The pair-selection rule as the specification words it: scan the
FIFO queue; the requesting user, if present, is paired with the next
distinct queued user after it, unless two distinct users have already
been found before the requester is scanned (requester at rank ≥ 2), in
which case the first two users are paired; absent requester, the first
two users are paired. -/
def specRulePair (userID : String) (members : List String) : Option (String × String) :=
  match zrank members userID with
  | some i =>
    if 2 ≤ i then
      match members with
      | a :: b :: _ => some (a, b)
      | _ => none
    else
      match members.get? (i + 1) with
      | some next => some (userID, next)
      | none => none
  | none =>
    match members with
    | a :: b :: _ => some (a, b)
    | _ => none

/-! Lemmas about the queue primitives. -/

theorem zrank_eq_none_iff : ∀ (q : List String) (u : String), zrank q u = none ↔ u ∉ q
  | [], u => by simp [zrank]
  | x :: rest, u => by
    by_cases hx : x = u
    · simp [zrank, hx]
    · simp [zrank, hx, zrank_eq_none_iff rest u, Ne.symm hx]

theorem zrank_of_get? : ∀ (q : List String), q.Nodup → ∀ (i : Nat) (u : String),
    q.get? i = some u → zrank q u = some i
  | [], _, i, u => by simp
  | x :: rest, hnd, 0, u => by
    intro h
    simp only [List.get?_cons_zero, Option.some.injEq] at h
    simp [zrank, h]
  | x :: rest, hnd, i + 1, u => by
    intro h
    simp only [List.get?_cons_succ] at h
    have hmem : u ∈ rest := List.get?_mem h
    have hx : x ∉ rest := (List.nodup_cons.mp hnd).1
    have hxu : x ≠ u := fun he => hx (he ▸ hmem)
    simp [zrank, hxu, zrank_of_get? rest (List.nodup_cons.mp hnd).2 i u h]

/-- If the accumulator is unset or not among the remaining members, a
scan result whose second component is set has two different
components (the second component is always drawn from strictly later
members than the first). -/
theorem scanLoop_pair_ne (userID : String) :
    ∀ (l : List String) (u1 : String), l.Nodup → (u1 ∉ l ∨ u1 = "") →
      (scanLoop userID l u1).2 ≠ "" → (scanLoop userID l u1).1 ≠ (scanLoop userID l u1).2
  | [], u1 => by
    intro _ _ h2
    simp [scanLoop] at h2
  | m :: rest, u1 => by
    intro hnd hacc h2
    have hmrest : m ∉ rest := (List.nodup_cons.mp hnd).1
    have hndrest : rest.Nodup := (List.nodup_cons.mp hnd).2
    by_cases hm : m = userID
    · rw [scanLoop, if_pos hm] at h2 ⊢
      exact scanLoop_pair_ne userID rest m hndrest (Or.inl hmrest) h2
    · by_cases hu1 : u1 ≠ ""
      · rw [scanLoop, if_neg hm, if_pos hu1]
        show u1 ≠ m
        have hu1nm : u1 ∉ m :: rest := hacc.resolve_right hu1
        exact fun he => hu1nm (by rw [he]; exact List.mem_cons_self m rest)
      · rw [scanLoop, if_neg hm, if_neg hu1] at h2 ⊢
        exact scanLoop_pair_ne userID rest m hndrest (Or.inl hmrest) h2

theorem findPair_ne (userID : String) (members : List String) (hnd : members.Nodup)
    (u1 u2 : String) (h : findPair userID members = some (u1, u2)) : u1 ≠ u2 := by
  rw [findPair] at h
  by_cases hlen : members.length < 2
  · simp [hlen] at h
  · rw [if_neg hlen] at h
    by_cases hp : (scanLoop userID members "").1 = "" ∨ (scanLoop userID members "").2 = ""
    · simp [hp] at h
    · rw [if_neg hp] at h
      push_neg at hp
      have hne := scanLoop_pair_ne userID members "" hnd (Or.inr rfl) hp.2
      injection h with h'
      have h1 : (scanLoop userID members "").1 = u1 := congrArg Prod.fst h'
      have h2 : (scanLoop userID members "").2 = u2 := congrArg Prod.snd h'
      rw [← h1, ← h2]
      exact hne

/-- C2 core: the Go scan agrees with the spec's pairing rule on every
duplicate-free queue whose members are nonempty strings (sorted-set
members are unique, and user ids are nonempty). -/
theorem findPair_eq_specRulePair (userID : String) (members : List String)
    (hnd : members.Nodup) (hne : "" ∉ members) :
    findPair userID members = specRulePair userID members := by
  match members with
  | [] => simp [findPair, specRulePair, zrank]
  | [a] =>
    by_cases ha : a = userID
    · simp [findPair, specRulePair, zrank, ha]
    · simp [findPair, specRulePair, zrank, ha]
  | a :: b :: rest =>
    have hab : ¬ a = b := by
      have h := (List.nodup_cons.mp hnd).1
      exact fun he => h (by rw [he]; exact List.mem_cons_self b rest)
    have hbrest : b ∉ rest := (List.nodup_cons.mp (List.nodup_cons.mp hnd).2).1
    have hane : a ≠ "" := fun he => hne (by rw [← he]; exact List.mem_cons_self a (b :: rest))
    have hbne : b ≠ "" := fun he => hne (by rw [← he]; exact List.mem_cons_of_mem a (List.mem_cons_self b rest))
    by_cases ha : a = userID
    · -- requester is first in the queue: paired with the second member
      subst ha
      have hba : ¬ b = a := fun he => hab he.symm
      have hscan : scanLoop a (a :: b :: rest) "" = (a, b) := by
        simp [scanLoop, hba, hane]
      simp [findPair, hscan, hane, hbne, specRulePair, zrank]
    · by_cases hb : b = userID
      · -- requester is second: the overwrite drops the first member
        subst hb
        match rest with
        | [] =>
          have hscan : scanLoop b [a, b] "" = (b, "") := by
            simp [scanLoop, ha]
          simp [findPair, hscan, specRulePair, zrank, hab, ha]
        | c :: rest2 =>
          have hcb : ¬ c = b := fun he => hbrest (by rw [← he]; exact List.mem_cons_self c rest2)
          have hcne : c ≠ "" := fun he => hne (by rw [← he]; simp)
          have hscan : scanLoop b (a :: b :: c :: rest2) "" = (b, c) := by
            simp [scanLoop, ha, hcb, hbne]
          simp [findPair, hscan, hbne, hcne, specRulePair, zrank, hab, ha]
      · -- requester is later or absent: first two members are paired
        have hscan : scanLoop userID (a :: b :: rest) "" = (a, b) := by
          simp [scanLoop, ha, hb, hane]
        rcases hz : zrank rest userID with _ | j
        · simp [findPair, hscan, hane, hbne, specRulePair, zrank, ha, hb, hz]
        · have h2j : 2 ≤ j + 1 + 1 := by omega
          simp [findPair, hscan, hane, hbne, specRulePair, zrank, ha, hb, hz, h2j]

/-- Destructuring a successful `FindMatch`: the scan produced a pair,
the room record was appended with exactly that pair, both users were
`LeaveQueue`d, and `user2` is returned as the partner. -/
theorem findMatch_ok_iff (s : MMState) (u rid rid' partner : String) (s' : MMState)
    (h : findMatch s u rid = .ok (rid', partner, s')) :
    ∃ u1 u2, findPair u s.queue = some (u1, u2) ∧ rid' = rid ∧ partner = u2 ∧
      s'.rooms = s.rooms ++ [⟨rid, "waiting", [u1, u2]⟩] ∧
      s'.queue = (s.queue.erase u1).erase u2 := by
  rcases hp : findPair u s.queue with _ | ⟨u1, u2⟩
  · simp [findMatch, hp] at h
  · simp only [findMatch, createRoomForMatch, hp, Except.ok.injEq, Prod.mk.injEq] at h
    obtain ⟨h1, h2, h3⟩ := h
    refine ⟨u1, u2, rfl, h1.symm, h2.symm, ?_, ?_⟩
    · rw [← h3]
    · rw [← h3]

/-! The claim theorems about the matchmaking queue. -/

/-- C2: `findMatch` fails with `NoMatchFound` whenever fewer than two
users are queued, and its pair selection agrees with the spec's
FIFO-scan rule (`specRulePair`) on every duplicate-free queue of
nonempty user ids — including the queues where the rule yields no pair
and the call fails with `NoMatchFound` despite two or more queued
users. -/
theorem findMatch_follows_scan_rule (userID : String) (members : List String)
    (hnd : members.Nodup) (hne : "" ∉ members) :
    (∀ (s : MMState) (rid : String), s.queue = members → members.length < 2 →
      findMatch s userID rid = .error .noMatchFound) ∧
    findPair userID members = specRulePair userID members ∧
    (∀ (s : MMState) (rid : String), s.queue = members → specRulePair userID members = none →
      findMatch s userID rid = .error .noMatchFound) := by
  have heq := findPair_eq_specRulePair userID members hnd hne
  refine ⟨?_, heq, ?_⟩
  · intro s rid hq hlen
    have hp : findPair userID members = none := by simp [findPair, hlen]
    simp [findMatch, hq, hp]
  · intro s rid hq hrule
    simp [findMatch, hq, heq, hrule]

theorem findMatch_follows_scan_rule_witness :
    findPair "u" ["a", "b"] = specRulePair "u" ["a", "b"] :=
  (findMatch_follows_scan_rule "u" ["a", "b"] (by decide) (by decide)).2.1

/-- C1: every successful `findMatch` appends a room record holding
exactly the two distinct matched users and removes both from the queue
before returning; concretely, with A queued before B, `findMatch(A)`
returns the room {A, B} and both users afterwards get `NotQueued` from
`queueStatus`. -/
theorem findMatch_success_two_distinct (s : MMState) (u rid rid' partner : String)
    (s' : MMState) (hnd : s.queue.Nodup) (h : findMatch s u rid = .ok (rid', partner, s')) :
    (∃ u1 u2, u1 ≠ u2 ∧
      s'.rooms = s.rooms ++ [⟨rid, "waiting", [u1, u2]⟩] ∧
      u1 ∉ s'.queue ∧ u2 ∉ s'.queue ∧ partner = u2) ∧
    (joinQueue [] "A" = .ok ["A"] ∧
     joinQueue ["A"] "B" = .ok ["A", "B"] ∧
     findMatch ⟨["A", "B"], []⟩ "A" "rAB" =
       .ok ("rAB", "B", ⟨[], [⟨"rAB", "waiting", ["A", "B"]⟩]⟩) ∧
     getQueueStatus [] "A" = .error .notQueued ∧
     getQueueStatus [] "B" = .error .notQueued) := by
  constructor
  · obtain ⟨u1, u2, hp, hr, hpart, hrooms, hq⟩ := findMatch_ok_iff s u rid rid' partner s' h
    have hne12 := findPair_ne u s.queue hnd u1 u2 hp
    subst hr
    refine ⟨u1, u2, hne12, hrooms, ?_, ?_, hpart⟩
    · rw [hq]
      intro hm
      have hm1 := List.mem_of_mem_erase hm
      exact ((hnd.mem_erase_iff).mp hm1).1 rfl
    · rw [hq]
      intro hm
      exact (((hnd.erase u1).mem_erase_iff).mp hm).1 rfl
  · exact ⟨rfl, rfl, rfl, rfl, rfl⟩

theorem findMatch_success_two_distinct_witness :
    ∃ u1 u2, u1 ≠ u2 ∧
      (MMState.mk [] [⟨"rAB", "waiting", ["A", "B"]⟩]).rooms =
        (MMState.mk ["A", "B"] []).rooms ++ [⟨"rAB", "waiting", [u1, u2]⟩] ∧
      u1 ∉ (MMState.mk [] [⟨"rAB", "waiting", ["A", "B"]⟩]).queue ∧
      u2 ∉ (MMState.mk [] [⟨"rAB", "waiting", ["A", "B"]⟩]).queue ∧ "B" = u2 :=
  (findMatch_success_two_distinct ⟨["A", "B"], []⟩ "A" "rAB" "rAB" "B"
    ⟨[], [⟨"rAB", "waiting", ["A", "B"]⟩]⟩ (by decide) rfl).1

/-- C7: `findMatch` can succeed for a requesting user without that
user being in the created room: with two other users queued ahead of
`u`, the scan pairs those two, the room excludes `u`, and `u`'s queue
entry survives (the call even reports `y` as `u`'s partner). -/
theorem findMatch_can_exclude_requester :
    findMatch ⟨["x", "y", "u"], []⟩ "u" "r1" =
      .ok ("r1", "y", ⟨["u"], [⟨"r1", "waiting", ["x", "y"]⟩]⟩) ∧
    ("u" ∉ (["x", "y"] : List String)) ∧
    ("u" ∈ (["u"] : List String)) :=
  ⟨rfl, by decide, by decide⟩

/-- C9: `leaveQueue` always succeeds, removes the entry, succeeds (as
a no-op) when the user is absent, and applying it twice gives the same
state and no error on the second call. -/
theorem leaveQueue_idempotent (q : List String) (u : String) (hnd : q.Nodup) :
    leaveQueue q u = .ok (q.erase u) ∧
    leaveQueue (q.erase u) u = .ok (q.erase u) ∧
    (u ∉ q → leaveQueue q u = .ok q) := by
  refine ⟨rfl, ?_, ?_⟩
  · have herase : (q.erase u).erase u = q.erase u :=
      List.erase_of_not_mem (fun hm => ((hnd.mem_erase_iff).mp hm).1 rfl)
    simp [leaveQueue, herase]
  · intro hm
    simp [leaveQueue, List.erase_of_not_mem hm]

theorem leaveQueue_idempotent_witness :
    leaveQueue ["a", "b"] "a" = .ok ["b"] ∧
    leaveQueue ["b"] "a" = .ok ["b"] :=
  ⟨(leaveQueue_idempotent ["a", "b"] "a" (by decide)).1,
   (leaveQueue_idempotent ["a", "b"] "a" (by decide)).2.1⟩

/-- C10: `queueStatus` fails with `NotQueued` exactly when the user is
absent; on success the position is the 0-based FIFO rank plus 1 and
the estimated wait is `position / 2` intervals of 30 seconds (integer
division). -/
theorem queueStatus_position_wait (q : List String) (u : String) (hnd : q.Nodup) :
    (getQueueStatus q u = .error .notQueued ↔ u ∉ q) ∧
    (∀ i, q.get? i = some u →
      getQueueStatus q u = .ok (i + 1, (i + 1) / 2 * 30)) := by
  rcases hz : zrank q u with _ | r
  · have hm : u ∉ q := (zrank_eq_none_iff q u).mp hz
    refine ⟨by simp [getQueueStatus, hz, hm], ?_⟩
    intro i hi
    exact absurd (List.get?_mem hi) hm
  · have hm : u ∈ q := by
      by_contra hn
      rw [← zrank_eq_none_iff q u] at hn
      rw [hn] at hz
      cases hz
    refine ⟨by simp [getQueueStatus, hz, hm], ?_⟩
    intro i hi
    have hzi := zrank_of_get? q hnd i u hi
    simp [getQueueStatus, hzi]

theorem queueStatus_position_wait_witness :
    getQueueStatus ["a", "b", "c"] "b" = .ok (2, 30) :=
  (queueStatus_position_wait ["a", "b", "c"] "b" (by decide)).2 1 rfl

/-- The queue operations a client can drive: HTTP join/leave and the
match attempt performed by the status poll.  A failed operation
returns the mapped error and leaves the state unchanged. -/
inductive MMOp where
  | join (u : String)
  | leave (u : String)
  | tryMatch (u roomID : String)

/-- One queue operation applied to the matchmaking state. -/
def applyOp (s : MMState) : MMOp → MMState
  | .join u =>
    match joinQueue s.queue u with
    | .ok q' => { s with queue := q' }
    | .error _ => s
  | .leave u =>
    match leaveQueue s.queue u with
    | .ok q' => { s with queue := q' }
    | .error _ => s
  | .tryMatch u rid =>
    match findMatch s u rid with
    | .ok (_, _, s') => s'
    | .error _ => s

/-- A whole session of queue operations run from the empty store. -/
def runOps (ops : List MMOp) : MMState := ops.foldl applyOp ⟨[], []⟩

theorem applyOp_nodup (s : MMState) (op : MMOp) (hnd : s.queue.Nodup) :
    (applyOp s op).queue.Nodup := by
  match op with
  | .join u =>
    by_cases hm : u ∈ s.queue
    · simp [applyOp, joinQueue, hm, hnd]
    · simp [applyOp, joinQueue, hm, List.nodup_append, hnd]
  | .leave u =>
    simpa [applyOp, leaveQueue] using hnd.erase u
  | .tryMatch u rid =>
    rcases hfm : findMatch s u rid with e | ⟨rid', partner, s'⟩
    · simp [applyOp, hfm, hnd]
    · simp only [applyOp, hfm]
      obtain ⟨u1, u2, _, _, _, _, hq⟩ := findMatch_ok_iff s u rid rid' partner s' hfm
      rw [hq]
      exact (hnd.erase u1).erase u2

theorem runOps_nodup_aux : ∀ (ops : List MMOp) (s : MMState), s.queue.Nodup →
    (ops.foldl applyOp s).queue.Nodup
  | [], _, h => h
  | op :: ops, s, h => runOps_nodup_aux ops (applyOp s op) (applyOp_nodup s op h)

/-- C8: along every sequence of join/leave/findMatch operations each
user has at most one queue entry (the queue stays duplicate-free), and
`joinQueue` on an already-queued user fails with `AlreadyQueued`
leaving the state unchanged. -/
theorem queue_entry_unique (ops : List MMOp) (s : MMState) (u : String) (hm : u ∈ s.queue) :
    (runOps ops).queue.Nodup ∧
    joinQueue s.queue u = .error .alreadyQueued ∧
    applyOp s (.join u) = s := by
  refine ⟨runOps_nodup_aux ops ⟨[], []⟩ (by simp), ?_, ?_⟩
  · simp [joinQueue, hm]
  · simp [applyOp, joinQueue, hm]

theorem queue_entry_unique_witness :
    (runOps [.join "a", .join "b", .tryMatch "a" "r"]).queue.Nodup ∧
    joinQueue ["a"] "a" = .error .alreadyQueued ∧
    applyOp ⟨["a"], []⟩ (.join "a") = ⟨["a"], []⟩ :=
  queue_entry_unique [.join "a", .join "b", .tryMatch "a" "r"] ⟨["a"], []⟩ "a" (by decide)

/-! The WebSocket hub registry (`internal/websocket/hub.go`). -/

/-- A live client connection; `connId` models the Go pointer identity
of the `*Client` (`registerClient` can create several connections for
one user, distinguished only by identity). -/
structure Conn where
  connId : Nat
  userID : String
deriving DecidableEq, Repr

/-- The hub's `clients map[string]*Client`, as an association list
from user id to connection (at most one entry per key). -/
abbrev Registry := List (String × Conn)

/-- Go map lookup `h.clients[u]`. -/
def getClient (r : Registry) (u : String) : Option Conn :=
  match r.find? (fun kv => kv.1 == u) with
  | some kv => some kv.2
  | none => none

/-- Go map assignment `h.clients[u] = c` (insert or replace). -/
def mapSet (r : Registry) (u : String) (c : Conn) : Registry :=
  r.filter (fun kv => kv.1 != u) ++ [(u, c)]

/-- Go map deletion `delete(h.clients, u)`. -/
def mapDelete (r : Registry) (u : String) : Registry :=
  r.filter (fun kv => kv.1 != u)

/-- `Hub.registerClient`: inserts or replaces the registry entry for
the connection's user.  A superseded connection is not removed from
the map; only its transport is closed after a grace delay, a side
effect outside the registry. -/
def registerClient (r : Registry) (c : Conn) : Registry :=
  mapSet r c.userID c

/-- `Hub.unregisterClient`: removes the entry only when it still
refers to this exact connection (`currentClient == client` pointer
comparison); otherwise the registry is left untouched.  The channel
close, partner notification and online-flag removal are side effects
outside the registry. -/
def unregisterClient (r : Registry) (c : Conn) : Registry :=
  match getClient r c.userID with
  | some current => if current = c then mapDelete r c.userID else r
  | none => r

theorem getClient_mapSet_self : ∀ (r : Registry) (u : String) (c : Conn),
    getClient (mapSet r u c) u = some c
  | [], u, c => by simp [getClient, mapSet, List.find?]
  | kv :: rest, u, c => by
    by_cases hk : kv.1 = u
    · simpa [mapSet, hk] using getClient_mapSet_self rest u c
    · simpa [mapSet, getClient, List.find?, hk] using getClient_mapSet_self rest u c

/-- C5: unregistering a superseded connection is a no-op.  After a
newer connection registers for the same user, unregistering the older
one leaves the registry exactly as it was, the newer entry included;
in general `unregisterClient` changes nothing unless the registry
entry still refers to that exact connection. -/
theorem unregister_only_exact_connection (r : Registry) (cOld cNew : Conn)
    (huser : cOld.userID = cNew.userID) (hne : cOld ≠ cNew) :
    unregisterClient (registerClient r cNew) cOld = registerClient r cNew ∧
    getClient (unregisterClient (registerClient r cNew) cOld) cNew.userID = some cNew ∧
    (∀ (r' : Registry) (c : Conn), getClient r' c.userID ≠ some c →
      unregisterClient r' c = r') := by
  have hget : getClient (registerClient r cNew) cOld.userID = some cNew := by
    rw [huser]
    exact getClient_mapSet_self r cNew.userID cNew
  have hnc : ¬ cNew = cOld := fun he => hne he.symm
  have hstep : unregisterClient (registerClient r cNew) cOld = registerClient r cNew := by
    simp [unregisterClient, hget, hnc]
  refine ⟨hstep, ?_, ?_⟩
  · rw [hstep]
    exact getClient_mapSet_self r cNew.userID cNew
  · intro r' c hno
    rcases hg : getClient r' c.userID with _ | cur
    · simp [unregisterClient, hg]
    · have hcur : ¬ cur = c := fun he => hno (by rw [hg, he])
      simp [unregisterClient, hg, hcur]

theorem unregister_only_exact_connection_witness :
    unregisterClient (registerClient [] ⟨1, "u"⟩) ⟨0, "u"⟩ = registerClient [] ⟨1, "u"⟩ ∧
    getClient (unregisterClient (registerClient [] ⟨1, "u"⟩) ⟨0, "u"⟩) "u" = some ⟨1, "u"⟩ :=
  ⟨(unregister_only_exact_connection [] ⟨0, "u"⟩ ⟨1, "u"⟩ rfl (by decide)).1,
   (unregister_only_exact_connection [] ⟨0, "u"⟩ ⟨1, "u"⟩ rfl (by decide)).2.1⟩

/-! The signaling relay (`Client.relayWebRTC` in
`internal/websocket/client.go`). -/

/-- `Hub.broadcastToAllClients`: enqueue to every registered client
whose user id differs from the excluded one. -/
def broadcastToAllClients (r : Registry) (exclude : String) : List String :=
  (r.filter (fun kv => kv.1 != exclude)).map Prod.fst

/-- `Hub.broadcastToRoomInternal`: resolve the room hash (participants
under keys `user1`/`user2`), skip the excluded user, and enqueue to
each resolved participant that has a registered client. -/
def broadcastToRoomInternal (participants : List (String × String)) (r : Registry)
    (exclude : String) : List String :=
  (participants.filter (fun kv =>
    (kv.1 == "user1" || kv.1 == "user2") && kv.2 != exclude &&
      (getClient r kv.2).isSome)).map Prod.snd

/-- The recipient sets of the deliveries performed by
`Client.relayWebRTC` for one negotiation payload: the room-scoped
delivery (`BroadcastToRoomExcept`) and the process-wide fallback
(`BroadcastToAllExcept`), both excluding the sender; with an empty
destination only the fallback runs.  The payload is identical for
both deliveries, so only the recipients are modelled. -/
def relayWebRTC (participants : List (String × String)) (r : Registry)
    (sender roomID : String) : List String × List String :=
  if roomID = "" then ([], broadcastToAllClients r sender)
  else (broadcastToRoomInternal participants r sender, broadcastToAllClients r sender)

/-- C6: a negotiation event whose destination names a room is
delivered both room-scoped and process-wide, each time excluding the
sender; the process-wide leg reaches exactly the registered users
other than the sender, and neither leg ever includes the sender. -/
theorem relay_dual_delivery (participants : List (String × String)) (r : Registry)
    (sender roomID : String) (hroom : roomID ≠ "") :
    (relayWebRTC participants r sender roomID).1 =
      broadcastToRoomInternal participants r sender ∧
    (relayWebRTC participants r sender roomID).2 = broadcastToAllClients r sender ∧
    sender ∉ (relayWebRTC participants r sender roomID).1 ∧
    sender ∉ (relayWebRTC participants r sender roomID).2 ∧
    (∀ u, u ∈ broadcastToAllClients r sender ↔ u ≠ sender ∧ ∃ c, (u, c) ∈ r) ∧
    (∀ u, u ∈ broadcastToRoomInternal participants r sender ↔
      ∃ kv ∈ participants, (kv.1 = "user1" ∨ kv.1 = "user2") ∧ kv.2 = u ∧
        u ≠ sender ∧ (getClient r u).isSome) := by
  have hall : ∀ u, u ∈ broadcastToAllClients r sender ↔ u ≠ sender ∧ ∃ c, (u, c) ∈ r := by
    intro u
    constructor
    · intro hm
      simp only [broadcastToAllClients, List.mem_map, List.mem_filter, bne_iff_ne, ne_eq] at hm
      obtain ⟨⟨u', c⟩, ⟨hmem, hne'⟩, heq⟩ := hm
      subst heq
      exact ⟨hne', ⟨c, hmem⟩⟩
    · rintro ⟨hneu, c, hmem⟩
      simp only [broadcastToAllClients, List.mem_map, List.mem_filter, bne_iff_ne, ne_eq]
      exact ⟨(u, c), ⟨hmem, hneu⟩, rfl⟩
  refine ⟨by simp [relayWebRTC, hroom], by simp [relayWebRTC, hroom], ?_, ?_, hall, ?_⟩
  · simp only [relayWebRTC, if_neg hroom]
    intro hm
    simp only [broadcastToRoomInternal, List.mem_map, List.mem_filter, Bool.and_eq_true,
      bne_iff_ne, ne_eq] at hm
    obtain ⟨kv, ⟨_, ⟨_, hne'⟩, _⟩, heq⟩ := hm
    exact hne' heq
  · simp only [relayWebRTC, if_neg hroom]
    intro hm
    exact ((hall sender).mp hm).1 rfl
  · intro u
    constructor
    · intro hm
      simp only [broadcastToRoomInternal, List.mem_map, List.mem_filter, Bool.and_eq_true,
        Bool.or_eq_true, beq_iff_eq, bne_iff_ne, ne_eq] at hm
      obtain ⟨kv, ⟨hmem, ⟨hkey, hne'⟩, hsome⟩, heq⟩ := hm
      subst heq
      exact ⟨kv, hmem, hkey, rfl, hne', hsome⟩
    · rintro ⟨kv, hmem, hkey, heq, hneu, hsome⟩
      subst heq
      simp only [broadcastToRoomInternal, List.mem_map, List.mem_filter, Bool.and_eq_true,
        Bool.or_eq_true, beq_iff_eq, bne_iff_ne, ne_eq]
      exact ⟨kv, ⟨hmem, ⟨hkey, hneu⟩, hsome⟩, rfl⟩

theorem relay_dual_delivery_witness :
    ("s" : String) ∉ (relayWebRTC [("user1", "s"), ("user2", "t")]
      [("s", ⟨0, "s"⟩), ("t", ⟨1, "t"⟩)] "s" "room1").1 ∧
    ("s" : String) ∉ (relayWebRTC [("user1", "s"), ("user2", "t")]
      [("s", ⟨0, "s"⟩), ("t", ⟨1, "t"⟩)] "s" "room1").2 :=
  ⟨(relay_dual_delivery [("user1", "s"), ("user2", "t")]
      [("s", ⟨0, "s"⟩), ("t", ⟨1, "t"⟩)] "s" "room1" (by decide)).2.2.1,
   (relay_dual_delivery [("user1", "s"), ("user2", "t")]
      [("s", ⟨0, "s"⟩), ("t", ⟨1, "t"⟩)] "s" "room1" (by decide)).2.2.2.1⟩

/-! The call-readiness coordinator (`Client.handleAcceptMatch` in
`internal/websocket/client.go`). -/

/-- One outbound event payload emitted by the accept handler, with the
fields the Go code sets (`target` is the recipient, the rest mirror
the JSON payload). -/
structure OutMsg where
  target : String
  type : String
  roomID : Option String
  role : Option String
  message : Option String
deriving DecidableEq, Repr

/-- `EventPartnerAccepted` in the event model. -/
def eventPartnerAccepted : String := "partner_accepted"

/-- `EventBothReady` in the event model. -/
def eventBothReady : String := "both_ready"

/-- Redis `SADD` on a set modelled as an insertion-ordered
duplicate-free list (`SMEMBERS` order is unspecified in Redis; the
model fixes insertion order, which only picks one of the equally
deterministic role assignments). -/
def sAdd (s : List String) (u : String) : List String :=
  if u ∈ s then s else s ++ [u]

/-- `Client.handleAcceptMatch`: on an accept from `u` for `roomID`,
`SADD` `u` into the room's accepted set (`[]` models an absent key);
if the set has exactly 1 member, send the accepter a wait
notification; if it has 2 or more, send `both_ready` with a role per
set index (index 1 gets `callee`, every other index `caller`), also
notify the room-hash participants (`p1`/`p2` under keys
`user1`/`user2`) other than the accepter, and delete the set. -/
def handleAcceptMatch (roomID p1 p2 : String) (acc : List String) (u : String) :
    List String × List OutMsg :=
  if roomID = "" then (acc, [])
  else
    let acc' := sAdd acc u
    let waitMsgs : List OutMsg :=
      if acc'.length = 1 then
        [⟨u, eventPartnerAccepted, none, none, some "Waiting for partner to accept..."⟩]
      else []
    if 2 ≤ acc'.length then
      let roleMsgs := acc'.enum.map (fun p =>
        (⟨p.2, eventBothReady, some roomID,
          some (if p.1 = 1 then "callee" else "caller"), none⟩ : OutMsg))
      let notifyMsgs := ([("user1", p1), ("user2", p2)].filter
        (fun kv => (kv.1 == "user1" || kv.1 == "user2") && kv.2 != u)).map
          (fun kv => (⟨kv.2, eventPartnerAccepted, some roomID, none, none⟩ : OutMsg))
      ([], waitMsgs ++ roleMsgs ++ notifyMsgs)
    else (acc', waitMsgs)

/-- The `part_003` variant of `handleAcceptMatch` shipped in the
repository: on the first accept it notifies the *other* room
participant instead of the accepter, and on the second it sorts the
accepted set lexicographically before assigning roles. -/
def handleAcceptMatchSorted (roomID p1 p2 : String) (acc : List String) (u : String) :
    List String × List OutMsg :=
  if roomID = "" then (acc, [])
  else
    let acc' := sAdd acc u
    if acc'.length = 1 then
      (acc', ([("user1", p1), ("user2", p2)].filter
        (fun kv => (kv.1 == "user1" || kv.1 == "user2") && kv.2 != u)).map
          (fun kv => (⟨kv.2, eventPartnerAccepted, some roomID, none, none⟩ : OutMsg)))
    else if 2 ≤ acc'.length then
      let sorted := acc'.insertionSort (· ≤ ·)
      ([], sorted.enum.map (fun p =>
        (⟨p.2, eventBothReady, some roomID,
          some (if p.1 = 1 then "callee" else "caller"), none⟩ : OutMsg)))
    else (acc', [])

/-- The room's accepted set after a sequence of accept events,
starting from an absent key. -/
def runAccepts (roomID p1 p2 : String) (events : List String) : List String :=
  events.foldl (fun acc u => (handleAcceptMatch roomID p1 p2 acc u).1) []

/-- In the `part_003` variant, the first accept notifies the other
room participant, not the accepter. -/
theorem handleAcceptMatchSorted_first_notifies_partner :
    (handleAcceptMatchSorted "r" "a" "b" [] "a").2 =
      [⟨"b", eventPartnerAccepted, some "r", none, none⟩] := by
  decide

/-- One accept step from a reachable set: the momentary set after
`SADD` has at most 2 members; the stored set keeps at most 1; and when
the momentary set reaches 2, the key is deleted and the `both_ready`
messages go exactly to the two members with complementary roles. -/
theorem handleAccept_step (roomID p1 p2 : String) (hr : roomID ≠ "") (acc : List String)
    (u : String) (hlen : acc.length ≤ 1) :
    (sAdd acc u).length ≤ 2 ∧
    (handleAcceptMatch roomID p1 p2 acc u).1.length ≤ 1 ∧
    (2 ≤ (sAdd acc u).length →
      (handleAcceptMatch roomID p1 p2 acc u).1 = [] ∧
      ∃ a b, sAdd acc u = [a, b] ∧ a ≠ b ∧
        ((handleAcceptMatch roomID p1 p2 acc u).2.filter
          (fun m => m.type == eventBothReady)) =
          [⟨a, eventBothReady, some roomID, some "caller", none⟩,
           ⟨b, eventBothReady, some roomID, some "callee", none⟩]) := by
  rcases acc with _ | ⟨a, _ | ⟨a2, rest⟩⟩
  · have hs : sAdd [] u = [u] := by simp [sAdd]
    refine ⟨by simp [hs], by simp [handleAcceptMatch, hr, hs], ?_⟩
    intro h2
    rw [hs] at h2
    simp at h2
  · by_cases hu : u ∈ [a]
    · have hua : u = a := List.mem_singleton.mp hu
      have hs : sAdd [a] u = [a] := by simp [sAdd, hua]
      refine ⟨by simp [hs], by simp [handleAcceptMatch, hr, hs], ?_⟩
      intro h2
      rw [hs] at h2
      simp at h2
    · have hua : ¬ u = a := fun he => hu (List.mem_singleton.mpr he)
      have hs : sAdd [a] u = [a, u] := by simp [sAdd, hua]
      have hau : a ≠ u := fun he => hua he.symm
      refine ⟨by simp [hs], ?_, ?_⟩
      · simp [handleAcceptMatch, hr, hs]
      · intro _
        refine ⟨by simp [handleAcceptMatch, hr, hs], a, u, hs, hau, ?_⟩
        simp [handleAcceptMatch, hr, hs, List.enum, eventBothReady, eventPartnerAccepted]
        intro m x y h1 h2 h3 h4
        subst h4
        simp
  · simp at hlen

theorem runAccepts_len_aux (roomID p1 p2 : String) :
    ∀ (events : List String) (acc : List String), acc.length ≤ 1 →
      (events.foldl (fun a u => (handleAcceptMatch roomID p1 p2 a u).1) acc).length ≤ 1
  | [], _, h => h
  | u :: events, acc, h => by
    rw [List.foldl_cons]
    by_cases hr : roomID = ""
    · exact runAccepts_len_aux roomID p1 p2 events _ (by simpa [handleAcceptMatch, hr] using h)
    · exact runAccepts_len_aux roomID p1 p2 events _
        (handleAccept_step roomID p1 p2 hr acc u h).2.1

/-- C3: along every sequence of accept events the room's accepted set
never exceeds 2 members — between events it holds at most 1, and the
momentary set after an `SADD` at most 2; the moment it reaches 2, both
members are sent `both_ready` carrying the room id with exactly one
`caller` and one `callee` role, and the set is deleted before the next
event. -/
theorem acceptance_set_bounded (roomID p1 p2 : String) (hr : roomID ≠ "")
    (events : List String) (u : String) :
    (runAccepts roomID p1 p2 events).length ≤ 1 ∧
    (sAdd (runAccepts roomID p1 p2 events) u).length ≤ 2 ∧
    (2 ≤ (sAdd (runAccepts roomID p1 p2 events) u).length →
      (handleAcceptMatch roomID p1 p2 (runAccepts roomID p1 p2 events) u).1 = [] ∧
      ∃ a b, sAdd (runAccepts roomID p1 p2 events) u = [a, b] ∧ a ≠ b ∧
        ((handleAcceptMatch roomID p1 p2 (runAccepts roomID p1 p2 events) u).2.filter
          (fun m => m.type == eventBothReady)) =
          [⟨a, eventBothReady, some roomID, some "caller", none⟩,
           ⟨b, eventBothReady, some roomID, some "callee", none⟩]) := by
  have h1 : (runAccepts roomID p1 p2 events).length ≤ 1 :=
    runAccepts_len_aux roomID p1 p2 events [] (by simp)
  obtain ⟨s1, _, s3⟩ := handleAccept_step roomID p1 p2 hr (runAccepts roomID p1 p2 events) u h1
  exact ⟨h1, s1, s3⟩

theorem acceptance_set_bounded_witness :
    (runAccepts "r" "a" "b" ["a"]).length ≤ 1 ∧
    (sAdd (runAccepts "r" "a" "b" ["a"]) "b").length ≤ 2 :=
  ⟨(acceptance_set_bounded "r" "a" "b" (by decide) ["a"] "b").1,
   (acceptance_set_bounded "r" "a" "b" (by decide) ["a"] "b").2.1⟩

/-- C4 counterexample: user `a`'s first accept for room `r` (room
participants `a` and `b`) brings the accepted set to exactly one
member, yet no message at all is addressed to the other participant
`b` — the only notification goes to the accepter. -/
theorem accept_first_no_partner_notification :
    (sAdd [] "a").length = 1 ∧
    (handleAcceptMatch "r" "a" "b" [] "a").2 =
      [⟨"a", eventPartnerAccepted, none, none, some "Waiting for partner to accept..."⟩] ∧
    (∀ m ∈ (handleAcceptMatch "r" "a" "b" [] "a").2, m.target ≠ "b") := by
  refine ⟨by decide, by decide, by decide⟩

/-- C4 amended: an accept that brings the accepted set to exactly one
member emits exactly one notification — the accepting user is told
they are waiting for their partner; no message targets the other room
participant at this point (the `part_003` variant instead notifies
only the other participant). -/
theorem accept_first_notifies_accepter (roomID p1 p2 : String) (hr : roomID ≠ "")
    (acc : List String) (u : String) (h1 : (sAdd acc u).length = 1) :
    (handleAcceptMatch roomID p1 p2 acc u).2 =
      [⟨u, eventPartnerAccepted, none, none, some "Waiting for partner to accept..."⟩] ∧
    (handleAcceptMatch roomID p1 p2 acc u).1 = sAdd acc u := by
  have h2 : ¬ 2 ≤ (sAdd acc u).length := by omega
  simp [handleAcceptMatch, hr, h1, h2]

theorem accept_first_notifies_accepter_witness :
    (handleAcceptMatch "r" "a" "b" [] "a").2 =
      [⟨"a", eventPartnerAccepted, none, none, some "Waiting for partner to accept..."⟩] :=
  (accept_first_notifies_accepter "r" "a" "b" (by decide) [] "a" (by decide)).1

end Rankedterview
